import Mathlib

/-!
Verification of the MSVD video-captioning data pipeline
(`dataset/MSVD.py`, `dataset/transform.py`).

Python dictionaries are modelled as association lists with unique keys,
insertion order preserved; `dinsert` updates an existing key in place and
appends a fresh key at the end, exactly like assignment into a Python dict.
Fallible operations (Python exceptions) return `Option`.
-/

/-- Lookup in a Python-dict model: first (and, with unique keys, only) match. -/
def dlookup [DecidableEq α] : List (α × β) → α → Option β
  | [], _ => none
  | (k, v) :: t, a => if k = a then some v else dlookup t a

/-- Assignment `d[k] = v` on a Python dict: replace in place, or append a fresh key. -/
def dinsert [DecidableEq α] : List (α × β) → α → β → List (α × β)
  | [], k, v => [(k, v)]
  | (k', v') :: t, k, v => if k' = k then (k, v) :: t else (k', v') :: dinsert t k v

/-- Membership test `k in d` on a Python dict. -/
def dcontains [DecidableEq α] (d : List (α × β)) (k : α) : Bool :=
  (dlookup d k).isSome

/-- Keys of the dict, in insertion order (Python dict iteration order). -/
def dkeys (d : List (α × β)) : List α := d.map Prod.fst

theorem dlookup_dinsert_self [DecidableEq α] (d : List (α × β)) (k : α) (v : β) :
    dlookup (dinsert d k v) k = some v := by
  induction d with
  | nil => simp [dinsert, dlookup]
  | cons p t ih =>
    obtain ⟨k', v'⟩ := p
    by_cases h : k' = k
    · simp [dinsert, h, dlookup]
    · simp [dinsert, h, dlookup, ih]

theorem dlookup_dinsert_ne [DecidableEq α] (d : List (α × β)) (k a : α) (v : β)
    (h : a ≠ k) : dlookup (dinsert d k v) a = dlookup d a := by
  have hka : k ≠ a := Ne.symm h
  induction d with
  | nil => simp [dinsert, dlookup, hka]
  | cons p t ih =>
    obtain ⟨k', v'⟩ := p
    by_cases hk : k' = k
    · subst hk
      simp [dinsert, dlookup, hka]
    · by_cases ha : k' = a <;> simp [dinsert, hk, dlookup, ha, ih, h]

theorem dinsert_of_not_mem_dkeys [DecidableEq α] (d : List (α × β)) (k : α) (v : β)
    (h : k ∉ dkeys d) : dinsert d k v = d ++ [(k, v)] := by
  induction d with
  | nil => simp [dinsert]
  | cons p t ih =>
    obtain ⟨k', v'⟩ := p
    simp only [dkeys, List.map_cons, List.mem_cons] at h
    push_neg at h
    have h1 : k' ≠ k := Ne.symm h.1
    simp [dinsert, h1, ih (by simpa [dkeys] using h.2)]

theorem dkeys_dinsert_mem [DecidableEq α] (d : List (α × β)) (k : α) (v : β)
    (h : k ∈ dkeys d) : dkeys (dinsert d k v) = dkeys d := by
  induction d with
  | nil => simp [dkeys] at h
  | cons p t ih =>
    obtain ⟨k', v'⟩ := p
    by_cases hk : k' = k
    · simp [dinsert, hk, dkeys]
    · have ht : k ∈ dkeys t := by
        simp only [dkeys, List.map_cons, List.mem_cons] at h
        rcases h with h | h
        · exact absurd h.symm hk
        · exact h
      have hrec := ih ht
      simp only [dinsert, if_neg hk, dkeys, List.map_cons]
      simp only [dkeys] at hrec
      rw [hrec]

theorem mem_dkeys_iff_dlookup_isSome [DecidableEq α] (d : List (α × β)) (k : α) :
    k ∈ dkeys d ↔ (dlookup d k).isSome := by
  induction d with
  | nil => simp [dkeys, dlookup]
  | cons p t ih =>
    obtain ⟨k', v'⟩ := p
    by_cases h : k' = k
    · simp [dkeys, dlookup, h]
    · have h1 : k ≠ k' := Ne.symm h
      simp only [dkeys, List.map_cons, List.mem_cons, dlookup, if_neg h]
      rw [← ih]
      simp [dkeys, h1]

theorem dkeys_dinsert_not_mem [DecidableEq α] (d : List (α × β)) (k : α) (v : β)
    (h : k ∉ dkeys d) : dkeys (dinsert d k v) = dkeys d ++ [k] := by
  rw [dinsert_of_not_mem_dkeys d k v h]
  simp [dkeys]

theorem length_dinsert_mem [DecidableEq α] (d : List (α × β)) (k : α) (v : β)
    (h : k ∈ dkeys d) : (dinsert d k v).length = d.length := by
  induction d with
  | nil => simp [dkeys] at h
  | cons p t ih =>
    obtain ⟨k', v'⟩ := p
    by_cases hk : k' = k
    · simp [dinsert, hk]
    · have ht : k ∈ dkeys t := by
        simp only [dkeys, List.map_cons, List.mem_cons] at h
        rcases h with h | h
        · exact absurd h.symm hk
        · exact h
      simp [dinsert, hk, ih ht]

theorem length_dinsert_not_mem [DecidableEq α] (d : List (α × β)) (k : α) (v : β)
    (h : k ∉ dkeys d) : (dinsert d k v).length = d.length + 1 := by
  rw [dinsert_of_not_mem_dkeys d k v h]
  simp

theorem nodup_dkeys_dinsert [DecidableEq α] (d : List (α × β)) (k : α) (v : β)
    (h : (dkeys d).Nodup) : (dkeys (dinsert d k v)).Nodup := by
  by_cases hm : k ∈ dkeys d
  · rwa [dkeys_dinsert_mem d k v hm]
  · rw [dkeys_dinsert_not_mem d k v hm]
    simpa [List.nodup_append] using ⟨h, hm⟩

theorem dlookup_append_left [DecidableEq α] (d₁ d₂ : List (α × β)) (k : α)
    (h : k ∈ dkeys d₁) : dlookup (d₁ ++ d₂) k = dlookup d₁ k := by
  induction d₁ with
  | nil => simp [dkeys] at h
  | cons p t ih =>
    obtain ⟨k', v'⟩ := p
    by_cases hk : k' = k
    · simp [dlookup, hk]
    · have ht : k ∈ dkeys t := by
        simp only [dkeys, List.map_cons, List.mem_cons] at h
        rcases h with h | h
        · exact absurd h.symm hk
        · exact h
      simp [dlookup, hk, ih ht]

theorem dlookup_append_right [DecidableEq α] (d₁ d₂ : List (α × β)) (k : α)
    (h : k ∉ dkeys d₁) : dlookup (d₁ ++ d₂) k = dlookup d₂ k := by
  induction d₁ with
  | nil => simp
  | cons p t ih =>
    obtain ⟨k', v'⟩ := p
    simp only [dkeys, List.map_cons, List.mem_cons] at h
    push_neg at h
    have h1 : k' ≠ k := Ne.symm h.1
    simp [dlookup, h1, ih (by simpa [dkeys] using h.2)]

/-! ### Vocabulary (`MSVDVocab` in `dataset/MSVD.py`) -/

/-- One step of the frequency count: `self.word_freq_dict[word] += 1` on a
`defaultdict(lambda: 0)`. -/
def countWord (freq : List (String × Nat)) (w : String) : List (String × Nat) :=
  dinsert freq w ((dlookup freq w).getD 0 + 1)

/-- The body of the caption loop in `MSVDVocab.build`: update the running
maximum sentence length (a Python int, so `Int`, starting at `-1`) and the
word-frequency table. -/
def vocabStep (transform : String → List String)
    (acc : Int × List (String × Nat)) (caption : String) :
    Int × List (String × Nat) :=
  let words := transform caption
  (max acc.1 (words.length : Int), words.foldl countWord acc.2)

/-- The index-assignment loop of `MSVDVocab.build`:
`for idx, word in enumerate(keep_words, len(self.word2idx)): ...`, updating
`word2idx` and `idx2word` symmetrically. -/
def buildMappings (start : Nat) (keep : List String)
    (w2i : List (String × Nat)) (i2w : List (Nat × String)) :
    List (String × Nat) × List (Nat × String) :=
  match keep with
  | [] => (w2i, i2w)
  | w :: rest => buildMappings (start + 1) rest (dinsert w2i w start) (dinsert i2w start w)

/-- The state of an `MSVDVocab` after `__init__`/`build` (the file path and the
transform are replaced by the list of caption strings the loader yields). -/
structure VocabData where
  word2idx : List (String × Nat)
  idx2word : List (Nat × String)
  word_freq_dict : List (String × Nat)
  n_vocabs : Nat
  n_words : Nat
  max_sentence_len : Int
  n_vocabs_untrimmed : Nat
  n_words_untrimmed : Nat

/-- `MSVDVocab.__init__` followed by `build`, over the already-loaded caption
strings: seed `word2idx` with `init_word2idx` and `idx2word` with its inverse
image, count frequencies and the running maximum token count, keep the words
with frequency at least `min_count` (in first-seen order), and append them to
both mappings with indices starting at `len(init_word2idx)`. -/
def buildVocab (init_word2idx : List (String × Nat)) (min_count : Nat)
    (transform : String → List String) (captions : List String) : VocabData :=
  let i2w0 := init_word2idx.map (fun p => (p.2, p.1))
  let r := captions.foldl (vocabStep transform) ((-1 : Int), ([] : List (String × Nat)))
  let freq := r.2
  let keep := (freq.filter (fun p => decide (min_count ≤ p.2))).map Prod.fst
  let m := buildMappings init_word2idx.length keep init_word2idx i2w0
  { word2idx := m.1
    idx2word := m.2
    word_freq_dict := freq
    n_vocabs := m.1.length
    n_words := (keep.map (fun w => (dlookup freq w).getD 0)).sum
    max_sentence_len := r.1
    n_vocabs_untrimmed := freq.length
    n_words_untrimmed := (freq.map Prod.snd).sum }

/-- The corpus frequency of a word: its entry in the frequency table, `0` if
absent (the `defaultdict` default). -/
def freqOf (freq : List (String × Nat)) (w : String) : Nat :=
  (dlookup freq w).getD 0

/-! ### Text transforms (`dataset/transform.py`) -/

/-- `string.punctuation`: the 32 ASCII punctuation characters removed by
`RemovePunctuation` (character codes 33-47, 58-64, 91-96, 123-126). -/
def punctuationChars : List Char :=
  [33, 34, 35, 36, 37, 38, 39, 40, 41, 42, 43, 44, 45, 46, 47,
   58, 59, 60, 61, 62, 63, 64, 91, 92, 93, 94, 95, 96,
   123, 124, 125, 126].map Char.ofNat

/-- `RemovePunctuation`: delete every ASCII punctuation character of the sentence. -/
def removePunctuation (s : String) : String :=
  ⟨s.data.filter (fun c => !punctuationChars.contains c)⟩

/-- `Lowercase`: `str.lower`, modelled characterwise (ASCII case folding). -/
def lowercase (s : String) : String :=
  ⟨s.data.map Char.toLower⟩

/-- Python `str.split()` whitespace: tab, newline, vertical tab, form feed,
carriage return, space. -/
def pySpaceChars : List Char :=
  [9, 10, 11, 12, 13, 32].map Char.ofNat

/-- Character-level worker for `str.split()`: cut the character list at every
whitespace character (`String.split` itself is not kernel-reducible, so the
split is modelled directly on the character list). -/
def splitChars : List Char → List Char → List (List Char)
  | [], acc => [acc.reverse]
  | c :: rest, acc =>
      if pySpaceChars.contains c then acc.reverse :: splitChars rest []
      else splitChars rest (c :: acc)

/-- `SplitWithWhiteSpace`: `str.split()` splits on whitespace runs and
discards empty fragments. -/
def splitWithWhiteSpace (s : String) : List String :=
  ((splitChars s.data []).filter (fun t => decide (t ≠ []))).map List.asString

/-- `Truncate(n_word)`: keep the first `n_word` tokens. -/
def truncate (nWord : Nat) (words : List α) : List α :=
  words.take nWord

/-- The caption normalizer `transform_sentence` built in `MSVD.__init__`:
RemovePunctuation, then Lowercase, then SplitWithWhiteSpace, then Truncate. -/
def transformSentence (nMaxWord : Nat) (s : String) : List String :=
  truncate nMaxWord (splitWithWhiteSpace (lowercase (removePunctuation s)))

/-- `ToIndex`: map each word to its index, silently dropping words absent
from `word2idx`. -/
def toIndex (word2idx : List (String × Nat)) (words : List String) : List Nat :=
  words.filterMap (fun w => dlookup word2idx w)

/-- `PadLast`: append one token. -/
def padLast (token : α) (words : List α) : List α :=
  words ++ [token]

/-- `PadToLength`: append `length - len(words)` copies of `token`. In Python a
negative replication count yields the empty list, so an over-long input is
returned unchanged; `Int.toNat` models exactly that. -/
def padToLength (token : α) (length : Int) (words : List α) : List α :=
  words ++ List.replicate (length - words.length).toNat token

/-- The caption transform chain of `MSVD.build_data_loaders` (without the final
`ToTensor`): normalize the sentence, map to indices, append one EOS index,
right-pad with the PAD index to length `msl + 1`. -/
def transformCaption (word2idx : List (String × Nat)) (eos pad : Nat)
    (msl : Int) (nMaxWord : Nat) (caption : String) : List Nat :=
  padToLength pad (msl + 1)
    (padLast eos (toIndex word2idx (transformSentence nMaxWord caption)))

/-! ### Frame transforms (`dataset/transform.py`) -/

/-- A video frame: one row of the per-video feature array. -/
abbrev Frame := List Int

/-- `[ int(i) for i in np.linspace(0, nFrames-1, nSample) ]`: `nSample` evenly
spaced real positions over `[0, nFrames-1]` inclusive, each truncated to an
integer. `np.linspace` is modelled with exact rational arithmetic; the
positions are non-negative, so truncation is `Nat.floor`. -/
def sampleIndices (nFrames nSample : Nat) : List Nat :=
  (List.range nSample).map (fun i =>
    Nat.floor (((i * (nFrames - 1) : Nat) : ℚ) / ((nSample - 1 : Nat) : ℚ)))

/-- `UniformSample(n_sample)`: pass sequences shorter than `n_sample` through
unchanged, otherwise take the frames at the uniformly spaced indices. -/
def uniformSample (nSample : Nat) (frames : List Frame) : List Frame :=
  if frames.length < nSample then frames
  else (sampleIndices frames.length nSample).map (fun i => frames.getD i [])

/-- `ZeroPadIfLessThan(n)`: append zero frames shaped like `frames[0]` until the
sequence reaches length `n`. Reading `frames[0]` of an empty sequence is a
Python error, modelled as `none`. -/
def zeroPadIfLessThan (n : Nat) (frames : List Frame) : Option (List Frame) :=
  if frames.length < n then
    match frames with
    | [] => none
    | f :: _ =>
        some (frames ++ List.replicate (n - frames.length) (List.replicate f.length 0))
  else some frames

/-! ### Dataset (`MSVDDataset` in `dataset/MSVD.py`) -/

/-- The grouping loop of `MSVDDataset.load_captions`: filtered rows
`(VideoID, Start, End, Description)` are grouped into a `defaultdict(list)`
keyed by the string `VideoID_Start_End`. -/
def groupCaptions (rows : List (String × Int × Int × String)) :
    List (String × List String) :=
  rows.foldl
    (fun acc r =>
      let vid := r.1 ++ "_" ++ toString r.2.1 ++ "_" ++ toString r.2.2.1
      dinsert acc vid ((dlookup acc vid).getD [] ++ [r.2.2.2]))
    []

/-- `MSVDDataset.build_video_caption_pairs`: for each video id of the video
store, in order, one pair per caption grouped under that id; an id missing
from the caption table yields the `defaultdict` default `[]`. -/
def buildVideoCaptionPairs (videos : List (String × List Frame))
    (captions : List (String × List String)) : List (List Frame × String) :=
  videos.foldl
    (fun acc v => acc ++ ((dlookup captions v.1).getD []).map (fun c => (v.2, c)))
    []

/-- `MSVDDataset.__len__`: `len(self.videos)`, the number of videos. -/
def datasetLen (videos : List (String × List Frame)) : Nat :=
  videos.length

/-- Python list subscription `xs[i]`: a negative index counts from the end;
an out-of-range access raises `IndexError`, modelled as `none`. -/
def pyListGet (xs : List α) (i : Int) : Option α :=
  let j := if i < 0 then (xs.length : Int) + i else i
  if 0 ≤ j then xs.get? j.toNat else none

/-- `MSVDDataset.__getitem__`: subscript the materialized pair list, then apply
the frame transform and the caption transform to the two components. -/
def getItem (videos : List (String × List Frame))
    (captions : List (String × List String))
    (tf : List Frame → γ) (tc : String → δ) (i : Int) : Option (γ × δ) :=
  (pyListGet (buildVideoCaptionPairs videos captions) i).map
    (fun p => (tf p.1, tc p.2))

/-! ### Helper lemmas: frame transforms -/

/-- The truncated linspace positions are the natural-number divisions
`i * (nFrames - 1) / (nSample - 1)`. -/
theorem sampleIndices_eq_natDiv (n t : Nat) :
    sampleIndices n t = (List.range t).map (fun i => i * (n - 1) / (t - 1)) := by
  unfold sampleIndices
  refine List.map_congr_left (fun i _ => ?_)
  exact Nat.floor_div_eq_div (i * (n - 1)) (t - 1)

theorem sampleIndices_length (n t : Nat) : (sampleIndices n t).length = t := by
  simp [sampleIndices]

theorem sampleIndices_pairwise (n t : Nat) :
    (sampleIndices n t).Pairwise (· ≤ ·) := by
  rw [sampleIndices_eq_natDiv]
  exact (List.pairwise_le_range t).map _
    (fun a b hab => Nat.div_le_div_right (Nat.mul_le_mul_right _ hab))

theorem sampleIndices_le (n t : Nat) :
    ∀ j ∈ sampleIndices n t, j ≤ n - 1 := by
  rw [sampleIndices_eq_natDiv]
  intro j hj
  simp only [List.mem_map, List.mem_range] at hj
  obtain ⟨i, hi, rfl⟩ := hj
  rcases Nat.eq_zero_or_pos (t - 1) with h0 | hpos
  · simp [h0]
  · calc i * (n - 1) / (t - 1)
        ≤ (t - 1) * (n - 1) / (t - 1) :=
          Nat.div_le_div_right (Nat.mul_le_mul_right _ (by omega))
      _ = n - 1 := Nat.mul_div_cancel_left _ hpos

theorem uniformSample_length_of_le (t : Nat) (frames : List Frame)
    (h : t ≤ frames.length) : (uniformSample t frames).length = t := by
  rw [uniformSample, if_neg (by omega)]
  simp [sampleIndices_length]

/-! ### Claim theorems: frame transforms -/

/-- C4: `UniformSample(target)` passes a sequence shorter than `target` through
unchanged; otherwise it returns exactly `target` frames, taken at the indices
obtained by truncating `target` evenly spaced real positions over `[0, n-1]`
(these are the natural divisions `i*(n-1)/(target-1)`), which are
non-decreasing and stay within `[0, n-1]`; in particular 10 frames sampled to
4 yield the frames at indices `[0, 3, 6, 9]`. -/
theorem C4_uniformSample_spec (target : Nat) (frames : List Frame) :
    (frames.length < target → uniformSample target frames = frames) ∧
    (target ≤ frames.length →
      (uniformSample target frames).length = target ∧
      sampleIndices frames.length target
        = (List.range target).map (fun i => i * (frames.length - 1) / (target - 1)) ∧
      (sampleIndices frames.length target).Pairwise (· ≤ ·) ∧
      (∀ j ∈ sampleIndices frames.length target, j ≤ frames.length - 1)) ∧
    uniformSample 4
        ([[0], [1], [2], [3], [4], [5], [6], [7], [8], [9]] : List Frame)
      = [[0], [3], [6], [9]] := by
  refine ⟨fun h => by rw [uniformSample, if_pos h], fun h => ?_, ?_⟩
  · exact ⟨uniformSample_length_of_le target frames h,
      sampleIndices_eq_natDiv frames.length target,
      sampleIndices_pairwise frames.length target,
      sampleIndices_le frames.length target⟩
  · rw [uniformSample, if_neg (by decide), sampleIndices_eq_natDiv]
    decide

/-- Witness for C4 at 10 concrete frames sampled down to 4. -/
theorem C4_uniformSample_spec_witness :
    (uniformSample 4
        ([[0], [1], [2], [3], [4], [5], [6], [7], [8], [9]] : List Frame)).length = 4 :=
  ((C4_uniformSample_spec 4 _).2.1 (by decide)).1

/-- C3 (amended): for every NON-EMPTY frame sequence, `UniformSample(target)`
followed by `ZeroPadIfLessThan(target)` succeeds and yields exactly `target`
frames. (On an empty sequence the pad step hits `frames[0]` and fails; see the
counterexample.) -/
theorem C3_sample_then_pad (target : Nat) (frames : List Frame)
    (h : frames ≠ []) :
    (zeroPadIfLessThan target (uniformSample target frames)).map List.length
      = some target := by
  by_cases hlt : frames.length < target
  · obtain ⟨f, rest, rfl⟩ := List.exists_cons_of_ne_nil h
    rw [uniformSample, if_pos hlt]
    rw [zeroPadIfLessThan, if_pos hlt]
    simp only [Option.map_some', List.length_append, List.length_replicate,
      List.length_cons, Option.some.injEq]
    simp only [List.length_cons] at hlt
    omega
  · have hlen : (uniformSample target frames).length = target :=
      uniformSample_length_of_le target frames (by omega)
    simp [zeroPadIfLessThan, hlen]

/-- Witness for C3: two frames padded up to three. -/
theorem C3_sample_then_pad_witness :
    (zeroPadIfLessThan 3 (uniformSample 3 ([[1, 2]] : List Frame))).map List.length
      = some 3 :=
  C3_sample_then_pad 3 [[1, 2]] (by decide)

/-- C3 counterexample: on the empty frame sequence with `target = 1` the
composition fails (Python: `IndexError` on `frames[0]`) instead of producing a
sequence of one frame. -/
theorem C3_counterexample :
    zeroPadIfLessThan 1 (uniformSample 1 ([] : List Frame)) = none ∧
    (zeroPadIfLessThan 1 (uniformSample 1 ([] : List Frame))).map List.length
      ≠ some 1 := by
  constructor
  · rfl
  · intro hc
    simp [uniformSample, zeroPadIfLessThan] at hc

/-- C10: `PadToLength(token, L)` never truncates: a sequence of length at least
`L` is returned unchanged, and a shorter one is extended by exactly
`L - length` copies of the padding token, reaching length exactly `L`. -/
theorem C10_padToLength_never_truncates (token : α) (L : Int) (words : List α) :
    (L ≤ (words.length : Int) → padToLength token L words = words) ∧
    ((words.length : Int) < L →
      (∃ npads : Nat, (npads : Int) = L - (words.length : Int) ∧
        padToLength token L words = words ++ List.replicate npads token) ∧
      ((padToLength token L words).length : Int) = L) := by
  constructor
  · intro h
    have h0 : (L - (words.length : Int)).toNat = 0 := by omega
    simp [padToLength, h0]
  · intro h
    refine ⟨⟨(L - (words.length : Int)).toNat, by omega, rfl⟩, ?_⟩
    simp only [padToLength, List.length_append, List.length_replicate]
    omega

/-- Witness for C10: both branches at concrete inputs. -/
theorem C10_padToLength_never_truncates_witness :
    padToLength (7 : Nat) 1 [1, 2] = [1, 2] ∧
    ((padToLength (7 : Nat) 4 [1, 2]).length : Int) = 4 :=
  ⟨(C10_padToLength_never_truncates 7 1 [1, 2]).1 (by decide),
   ((C10_padToLength_never_truncates 7 4 [1, 2]).2 (by decide)).2⟩

/-! ### Helper lemmas: the caption fold of `MSVDVocab.build` -/

/-- The first component of the caption fold is the running maximum of the
token counts. -/
theorem vocabFold_fst (transform : String → List String) (captions : List String) :
    ∀ (a : Int) (f : List (String × Nat)),
      (captions.foldl (vocabStep transform) (a, f)).1
        = captions.foldl (fun m c => max m ((transform c).length : Int)) a := by
  induction captions with
  | nil => intro a f; rfl
  | cons c rest ih => intro a f; exact ih _ _

theorem foldl_max_init_le (g : α → Int) (l : List α) (a : Int) :
    a ≤ l.foldl (fun m x => max m (g x)) a := by
  induction l generalizing a with
  | nil => simp
  | cons c rest ih => exact le_trans (le_max_left _ _) (ih _)

theorem foldl_max_mem_le (g : α → Int) (l : List α) (a : Int) :
    ∀ c ∈ l, g c ≤ l.foldl (fun m x => max m (g x)) a := by
  induction l generalizing a with
  | nil => simp
  | cons c rest ih =>
    intro x hx
    rcases List.mem_cons.mp hx with rfl | hx
    · exact le_trans (le_max_right _ _) (foldl_max_init_le g rest _)
    · exact ih _ x hx

theorem foldl_max_eq_init_or_mem (g : α → Int) (l : List α) (a : Int) :
    l.foldl (fun m x => max m (g x)) a = a ∨
      ∃ c ∈ l, l.foldl (fun m x => max m (g x)) a = g c := by
  induction l generalizing a with
  | nil => exact Or.inl rfl
  | cons c rest ih =>
    rcases ih (max a (g c)) with h | ⟨x, hx, h⟩
    · rcases max_cases a (g c) with ⟨hm, _⟩ | ⟨hm, _⟩
      · exact Or.inl (by rw [List.foldl_cons, h, hm])
      · exact Or.inr ⟨c, List.mem_cons_self _ _, by rw [List.foldl_cons, h, hm]⟩
    · exact Or.inr ⟨x, List.mem_cons_of_mem _ hx, by rw [List.foldl_cons, h]⟩

/-! ### Claim theorems: vocabulary max sentence length -/

/-- C5: `max_sentence_len` is `-1` for an empty corpus, and otherwise is the
maximum post-normalization token count over all captions: it bounds every
caption's token count and is attained by some caption. -/
theorem C5_max_sentence_len (init_word2idx : List (String × Nat)) (min_count : Nat)
    (transform : String → List String) (captions : List String) :
    (captions = [] →
      (buildVocab init_word2idx min_count transform captions).max_sentence_len = -1) ∧
    (∀ c ∈ captions, ((transform c).length : Int)
        ≤ (buildVocab init_word2idx min_count transform captions).max_sentence_len) ∧
    (captions ≠ [] → ∃ c ∈ captions,
      (buildVocab init_word2idx min_count transform captions).max_sentence_len
        = ((transform c).length : Int)) := by
  have hm : (buildVocab init_word2idx min_count transform captions).max_sentence_len
      = captions.foldl (fun m c => max m ((transform c).length : Int)) (-1) :=
    vocabFold_fst transform captions (-1) []
  refine ⟨?_, ?_, ?_⟩
  · rintro rfl
    rfl
  · intro c hc
    rw [hm]
    exact foldl_max_mem_le _ captions (-1) c hc
  · intro hne
    rw [hm]
    rcases foldl_max_eq_init_or_mem (fun c => ((transform c).length : Int))
        captions (-1) with h | h
    · obtain ⟨c, hc⟩ := List.exists_mem_of_ne_nil captions hne
      have hb := foldl_max_mem_le (fun c => ((transform c).length : Int))
        captions (-1) c hc
      rw [h] at hb
      have hb2 : ((transform c).length : Int) ≤ -1 := hb
      omega
    · exact h

/-- Witness for C5: the empty corpus gives `-1`; in the spec's concrete corpus
the caption "a CAT sat" is bounded by the maximum. -/
theorem C5_max_sentence_len_witness :
    (buildVocab [("<PAD>", 0), ("<EOS>", 1)] 2 (transformSentence 50) []).max_sentence_len
      = -1 ∧
    ((transformSentence 50 "a CAT sat").length : Int)
      ≤ (buildVocab [("<PAD>", 0), ("<EOS>", 1)] 2 (transformSentence 50)
          ["A cat.", "a CAT sat", "dog"]).max_sentence_len :=
  ⟨(C5_max_sentence_len [("<PAD>", 0), ("<EOS>", 1)] 2 (transformSentence 50) []).1 rfl,
   (C5_max_sentence_len [("<PAD>", 0), ("<EOS>", 1)] 2 (transformSentence 50)
      ["A cat.", "a CAT sat", "dog"]).2.1 "a CAT sat" (by simp)⟩

/-! ### Claim theorems: caption transform chain -/

/-- C2 (amended): whenever the caption's surviving token count is at most
`msl` (as holds for every caption of the corpus the vocabulary was built
from), the caption transform yields the surviving indices, then exactly one
EOS index, then only PAD indices, with total length exactly `msl + 1`; in
particular a caption with no surviving token yields `EOS :: PAD ...` without
error. (For a caption with more surviving tokens than `msl` the output is
longer; see the counterexample.) -/
theorem C2_caption_transform (word2idx : List (String × Nat)) (eos pad : Nat)
    (msl : Int) (nMaxWord : Nat) (caption : String)
    (h : ((toIndex word2idx (transformSentence nMaxWord caption)).length : Int) ≤ msl) :
    transformCaption word2idx eos pad msl nMaxWord caption
      = toIndex word2idx (transformSentence nMaxWord caption) ++
          eos :: List.replicate
            (msl - ((toIndex word2idx (transformSentence nMaxWord caption)).length : Int)).toNat
            pad ∧
    ((transformCaption word2idx eos pad msl nMaxWord caption).length : Int) = msl + 1 := by
  set ks := toIndex word2idx (transformSentence nMaxWord caption) with hks
  have h1 : (msl + 1 - (((padLast eos ks).length : Nat) : Int)).toNat
      = (msl - ((ks.length : Nat) : Int)).toNat := by
    simp only [padLast, List.length_append, List.length_cons, List.length_nil]
    omega
  have hform : transformCaption word2idx eos pad msl nMaxWord caption
      = ks ++ eos :: List.replicate (msl - ((ks.length : Nat) : Int)).toNat pad := by
    show padToLength pad (msl + 1) (padLast eos ks)
      = ks ++ eos :: List.replicate (msl - ((ks.length : Nat) : Int)).toNat pad
    rw [padToLength, h1, padLast, List.append_assoc]
    rfl
  refine ⟨hform, ?_⟩
  rw [hform]
  simp only [List.length_append, List.length_cons, List.length_replicate]
  omega

/-- Witness for C2: a caption whose every token is unknown yields exactly
`[EOS, PAD, PAD]` for `msl = 2`. -/
theorem C2_caption_transform_witness :
    transformCaption [("<PAD>", 0), ("<EOS>", 1), ("a", 2)] 1 0 2 50 "xyz qq"
      = [1, 0, 0] := by
  have h := (C2_caption_transform [("<PAD>", 0), ("<EOS>", 1), ("a", 2)] 1 0 2 50
    "xyz qq" (by decide)).1
  exact h.trans (by decide)

/-- C2 counterexample: with the vocabulary built from the single caption "a"
(`max_sentence_len = 1`), the caption "a a" keeps two tokens and the transform
output has length 3, not `max_sentence_len + 1 = 2`. -/
theorem C2_counterexample :
    ((transformCaption
        (buildVocab [("<PAD>", 0), ("<EOS>", 1)] 1 (transformSentence 50) ["a"]).word2idx
        1 0
        (buildVocab [("<PAD>", 0), ("<EOS>", 1)] 1 (transformSentence 50) ["a"]).max_sentence_len
        50 "a a").length : Int)
      ≠ (buildVocab [("<PAD>", 0), ("<EOS>", 1)] 1 (transformSentence 50) ["a"]).max_sentence_len
          + 1 := by
  decide

/-! ### Helper lemmas: frequency table and kept words -/

theorem dlookup_mem [DecidableEq α] (d : List (α × β)) (k : α) (v : β)
    (h : dlookup d k = some v) : (k, v) ∈ d := by
  induction d with
  | nil => cases h
  | cons p t ih =>
    obtain ⟨k', v'⟩ := p
    by_cases hk : k' = k
    · simp only [dlookup, if_pos hk] at h
      injection h with h
      subst hk
      subst h
      exact List.mem_cons_self _ _
    · simp only [dlookup, if_neg hk] at h
      exact List.mem_cons_of_mem _ (ih h)

theorem dlookup_eq_some_of_mem [DecidableEq α] (d : List (α × β)) (k : α) (v : β)
    (hnodup : (dkeys d).Nodup) (h : (k, v) ∈ d) : dlookup d k = some v := by
  induction d with
  | nil => cases h
  | cons p t ih =>
    obtain ⟨k', v'⟩ := p
    have hnodup2 : (k' :: dkeys t).Nodup := by simpa [dkeys] using hnodup
    have hn := List.nodup_cons.mp hnodup2
    rcases List.mem_cons.mp h with he | ht
    · injection he with he1 he2
      subst he1
      subst he2
      simp [dlookup]
    · have hkne : k' ≠ k := by
        intro he
        subst he
        exact hn.1 (by simpa [dkeys] using List.mem_map_of_mem Prod.fst ht)
      rw [dlookup, if_neg hkne]
      exact ih (hn.2) ht

theorem dcontains_dinsert [DecidableEq α] (d : List (α × β)) (k a : α) (v : β) :
    dcontains (dinsert d k v) a = true ↔ (dcontains d a = true ∨ a = k) := by
  by_cases ha : a = k
  · subst ha
    unfold dcontains
    rw [dlookup_dinsert_self]
    simp
  · unfold dcontains
    rw [dlookup_dinsert_ne _ _ _ _ ha]
    simp [ha]

/-- The word-frequency table accumulated by `MSVDVocab.build` over the corpus. -/
def vocabFreq (transform : String → List String) (captions : List String) :
    List (String × Nat) :=
  (captions.foldl (vocabStep transform) ((-1 : Int), ([] : List (String × Nat)))).2

/-- The kept words of `MSVDVocab.build`: corpus frequency at least `min_count`,
in first-seen order. -/
def keepWords (freq : List (String × Nat)) (min_count : Nat) : List String :=
  (freq.filter (fun p => decide (min_count ≤ p.2))).map Prod.fst

theorem countWord_nodup (f : List (String × Nat)) (w : String)
    (h : (dkeys f).Nodup) : (dkeys (countWord f w)).Nodup :=
  nodup_dkeys_dinsert _ _ _ h

theorem foldl_countWord_nodup (ws : List String) :
    ∀ f, (dkeys f).Nodup → (dkeys (ws.foldl countWord f)).Nodup := by
  induction ws with
  | nil => exact fun _ h => h
  | cons w rest ih => exact fun f h => ih _ (countWord_nodup f w h)

theorem countWord_pos (f : List (String × Nat)) (w : String)
    (h : ∀ x, dcontains f x = true ↔ 0 < freqOf f x) :
    ∀ x, dcontains (countWord f w) x = true ↔ 0 < freqOf (countWord f w) x := by
  intro x
  by_cases hx : x = w
  · subst hx
    unfold dcontains freqOf countWord
    rw [dlookup_dinsert_self]
    simp
  · unfold dcontains freqOf countWord
    rw [dlookup_dinsert_ne _ _ _ _ hx]
    exact h x

theorem foldl_countWord_pos (ws : List String) :
    ∀ f, (∀ x, dcontains f x = true ↔ 0 < freqOf f x) →
      ∀ x, dcontains (ws.foldl countWord f) x = true
        ↔ 0 < freqOf (ws.foldl countWord f) x := by
  induction ws with
  | nil => exact fun _ h => h
  | cons w rest ih => exact fun f h => ih _ (countWord_pos f w h)

/-- The second component of the caption fold is the plain nested frequency
fold, independent of the running maximum. -/
theorem vocabFold_snd (transform : String → List String) (captions : List String) :
    ∀ (a : Int) (f : List (String × Nat)),
      (captions.foldl (vocabStep transform) (a, f)).2
        = captions.foldl (fun f c => (transform c).foldl countWord f) f := by
  induction captions with
  | nil => intro a f; rfl
  | cons c rest ih => intro a f; exact ih _ _

theorem foldl_captions_nodup (transform : String → List String)
    (captions : List String) :
    ∀ f, (dkeys f).Nodup →
      (dkeys (captions.foldl (fun f c => (transform c).foldl countWord f) f)).Nodup := by
  induction captions with
  | nil => exact fun _ h => h
  | cons c rest ih => exact fun f h => ih _ (foldl_countWord_nodup (transform c) f h)

theorem foldl_captions_pos (transform : String → List String)
    (captions : List String) :
    ∀ f, (∀ x, dcontains f x = true ↔ 0 < freqOf f x) →
      ∀ x, dcontains (captions.foldl (fun f c => (transform c).foldl countWord f) f) x
          = true
        ↔ 0 < freqOf (captions.foldl (fun f c => (transform c).foldl countWord f) f) x := by
  induction captions with
  | nil => exact fun _ h => h
  | cons c rest ih => exact fun f h => ih _ (foldl_countWord_pos (transform c) f h)

theorem vocabFreq_nodup (transform : String → List String) (captions : List String) :
    (dkeys (vocabFreq transform captions)).Nodup := by
  rw [vocabFreq, vocabFold_snd]
  exact foldl_captions_nodup transform captions [] (by simp [dkeys])

theorem vocabFreq_pos (transform : String → List String) (captions : List String) :
    ∀ x, dcontains (vocabFreq transform captions) x = true
      ↔ 0 < freqOf (vocabFreq transform captions) x := by
  rw [vocabFreq, vocabFold_snd]
  exact foldl_captions_pos transform captions []
    (by intro x; simp [dcontains, dlookup, freqOf])

theorem mem_keepWords_iff (freq : List (String × Nat)) (min_count : Nat)
    (hnodup : (dkeys freq).Nodup)
    (hpos : ∀ x, dcontains freq x = true ↔ 0 < freqOf freq x)
    (hmc : 1 ≤ min_count) :
    ∀ w, w ∈ keepWords freq min_count ↔ min_count ≤ freqOf freq w := by
  intro w
  constructor
  · intro hw
    simp only [keepWords, List.mem_map, List.mem_filter] at hw
    obtain ⟨⟨k, v⟩, ⟨hmem, hge⟩, hfst⟩ := hw
    have hv : min_count ≤ v := of_decide_eq_true hge
    have hlk : dlookup freq k = some v := dlookup_eq_some_of_mem freq k v hnodup hmem
    subst hfst
    unfold freqOf
    rw [hlk]
    exact hv
  · intro hge
    have hcont := (hpos w).mpr (by omega)
    have hsome : (dlookup freq w).isSome := hcont
    obtain ⟨v, hv⟩ := Option.isSome_iff_exists.mp hsome
    have hval : freqOf freq w = v := by
      unfold freqOf
      rw [hv]
      rfl
    simp only [keepWords, List.mem_map, List.mem_filter]
    exact ⟨(w, v), ⟨dlookup_mem freq w v hv, decide_eq_true (by omega)⟩, rfl⟩

theorem keepWords_nodup (freq : List (String × Nat)) (min_count : Nat)
    (h : (dkeys freq).Nodup) : (keepWords freq min_count).Nodup :=
  h.sublist ((List.filter_sublist freq).map Prod.fst)

/-! ### Helper lemmas: the index-assignment loop -/

/-- Invariant propagation through the `enumerate` loop of `MSVDVocab.build`:
starting from a key-unique `word2idx` whose values lie below `start`, an
`idx2word` that inverts it with keys below `start`, and fresh, duplicate-free
kept words, the loop preserves membership, the inverse property, and equal
sizes of the two mappings. -/
theorem buildMappings_spec (keep : List String) :
    ∀ (start : Nat) (w2i : List (String × Nat)) (i2w : List (Nat × String)),
      (dkeys w2i).Nodup →
      keep.Nodup →
      (∀ w ∈ keep, w ∉ dkeys w2i) →
      (∀ w idx, dlookup w2i w = some idx → dlookup i2w idx = some w) →
      w2i.length = i2w.length →
      (∀ idx ∈ dkeys i2w, idx < start) →
      (∀ p ∈ w2i, p.2 < start) →
      (∀ w, dcontains (buildMappings start keep w2i i2w).1 w = true ↔
        (dcontains w2i w = true ∨ w ∈ keep)) ∧
      (∀ w idx, dlookup (buildMappings start keep w2i i2w).1 w = some idx →
        dlookup (buildMappings start keep w2i i2w).2 idx = some w) ∧
      (buildMappings start keep w2i i2w).1.length
        = (buildMappings start keep w2i i2w).2.length := by
  induction keep with
  | nil =>
    intro start w2i i2w _ _ _ hinv hlen _ _
    exact ⟨fun w => by simp [buildMappings], hinv, hlen⟩
  | cons w rest ih =>
    intro start w2i i2w hnodup hkeep hfresh hinv hlen hi2wlt hw2ilt
    have hkeepc := List.nodup_cons.mp hkeep
    have hwfresh : w ∉ dkeys w2i := hfresh w (List.mem_cons_self _ _)
    have hstartfresh : start ∉ dkeys i2w := fun hmem => lt_irrefl start (hi2wlt start hmem)
    have hw2ieq : dinsert w2i w start = w2i ++ [(w, start)] :=
      dinsert_of_not_mem_dkeys _ _ _ hwfresh
    have hi2weq : dinsert i2w start w = i2w ++ [(start, w)] :=
      dinsert_of_not_mem_dkeys _ _ _ hstartfresh
    have hrec := ih (start + 1) (dinsert w2i w start) (dinsert i2w start w)
      (nodup_dkeys_dinsert _ _ _ hnodup)
      hkeepc.2
      (by
        intro x hx
        rw [dkeys_dinsert_not_mem _ _ _ hwfresh]
        intro hmem
        rcases List.mem_append.mp hmem with hmem | hmem
        · exact hfresh x (List.mem_cons_of_mem _ hx) hmem
        · have hxw : x = w := by simpa using hmem
          exact hkeepc.1 (hxw ▸ hx))
      (by
        intro x idx hlk
        rw [hw2ieq] at hlk
        rw [hi2weq]
        by_cases hmem : x ∈ dkeys w2i
        · rw [dlookup_append_left _ _ _ hmem] at hlk
          have hold := hinv x idx hlk
          have hidxmem : idx ∈ dkeys i2w :=
            (mem_dkeys_iff_dlookup_isSome i2w idx).mpr (by rw [hold]; rfl)
          rw [dlookup_append_left _ _ _ hidxmem]
          exact hold
        · rw [dlookup_append_right _ _ _ hmem] at hlk
          simp only [dlookup] at hlk
          by_cases hwx : w = x
          · rw [if_pos hwx] at hlk
            injection hlk with hlk
            subst hwx
            subst hlk
            rw [dlookup_append_right _ _ _ hstartfresh]
            simp [dlookup]
          · rw [if_neg hwx] at hlk
            cases hlk)
      (by
        rw [length_dinsert_not_mem _ _ _ hwfresh,
          length_dinsert_not_mem _ _ _ hstartfresh, hlen])
      (by
        intro idx hmem
        rw [dkeys_dinsert_not_mem _ _ _ hstartfresh] at hmem
        rcases List.mem_append.mp hmem with hmem | hmem
        · exact Nat.lt_succ_of_lt (hi2wlt idx hmem)
        · have : idx = start := by simpa using hmem
          omega)
      (by
        intro p hp
        rw [hw2ieq] at hp
        rcases List.mem_append.mp hp with hp | hp
        · exact Nat.lt_succ_of_lt (hw2ilt p hp)
        · have : p = (w, start) := by simpa using hp
          rw [this]
          omega)
    obtain ⟨hc, hi, hl⟩ := hrec
    have hunfold : buildMappings start (w :: rest) w2i i2w
        = buildMappings (start + 1) rest (dinsert w2i w start) (dinsert i2w start w) :=
      rfl
    rw [hunfold]
    refine ⟨?_, hi, hl⟩
    intro x
    rw [hc x, dcontains_dinsert, List.mem_cons]
    tauto

/-- If the values of an association list are duplicate-free, the swapped list
(the seeding of `idx2word` from `init_word2idx`) inverts every lookup. -/
theorem dlookup_swap (init : List (String × Nat))
    (hvals : (init.map Prod.snd).Nodup) :
    ∀ w idx, dlookup init w = some idx →
      dlookup (init.map (fun p => (p.2, p.1))) idx = some w := by
  induction init with
  | nil => intro w idx h; cases h
  | cons p t ih =>
    obtain ⟨k, v⟩ := p
    have hvals2 : (v :: t.map Prod.snd).Nodup := by simpa using hvals
    have hv := List.nodup_cons.mp hvals2
    intro w idx h
    by_cases hk : k = w
    · rw [dlookup, if_pos hk] at h
      injection h with h
      subst h
      simp only [List.map_cons]
      rw [dlookup, if_pos rfl, hk]
    · rw [dlookup, if_neg hk] at h
      have hmem : (w, idx) ∈ t := dlookup_mem t w idx h
      have hidx : idx ∈ t.map Prod.snd := List.mem_map_of_mem Prod.snd hmem
      have hne : v ≠ idx := fun he => hv.1 (he ▸ hidx)
      simp only [List.map_cons]
      rw [dlookup, if_neg hne]
      exact ih hv.2 w idx h

/-! ### Claim theorems: vocabulary invariants -/

/-- C1 (amended): for a well-formed reserved mapping (distinct tokens, distinct
indices `0 ≤ idx < |reserved|`), `min_count ≥ 1`, and no reserved token
occurring in the corpus with frequency `≥ min_count`: a word is a key of
`word2idx` iff it is reserved or its corpus frequency is at least `min_count`;
`idx2word` inverts `word2idx` on every key; the two mappings have equal size;
and every reserved token remains present. (If a reserved token is also a kept
corpus word the loop re-indexes it and the sizes diverge; see the
counterexample.) -/
theorem C1_vocab_invariants (init_word2idx : List (String × Nat)) (min_count : Nat)
    (transform : String → List String) (captions : List String)
    (hkeys : (dkeys init_word2idx).Nodup)
    (hvals : (init_word2idx.map Prod.snd).Nodup)
    (hbound : ∀ p ∈ init_word2idx, p.2 < init_word2idx.length)
    (hmc : 1 ≤ min_count)
    (hdisj : ∀ p ∈ init_word2idx,
      freqOf (vocabFreq transform captions) p.1 < min_count) :
    (∀ w, dcontains (buildVocab init_word2idx min_count transform captions).word2idx w
        = true
      ↔ (dcontains init_word2idx w = true ∨
          min_count ≤ freqOf (vocabFreq transform captions) w)) ∧
    (∀ w idx,
      dlookup (buildVocab init_word2idx min_count transform captions).word2idx w
          = some idx →
      dlookup (buildVocab init_word2idx min_count transform captions).idx2word idx
          = some w) ∧
    (buildVocab init_word2idx min_count transform captions).word2idx.length
      = (buildVocab init_word2idx min_count transform captions).idx2word.length ∧
    (∀ p ∈ init_word2idx,
      dcontains (buildVocab init_word2idx min_count transform captions).word2idx p.1
        = true) := by
  set freq := vocabFreq transform captions with hfreq
  set keep := keepWords freq min_count with hkeepdef
  set i2w0 := init_word2idx.map (fun p => (p.2, p.1)) with hi2w0
  have hw2i : (buildVocab init_word2idx min_count transform captions).word2idx
      = (buildMappings init_word2idx.length keep init_word2idx i2w0).1 := rfl
  have hi2w : (buildVocab init_word2idx min_count transform captions).idx2word
      = (buildMappings init_word2idx.length keep init_word2idx i2w0).2 := rfl
  have hfnodup : (dkeys freq).Nodup := vocabFreq_nodup transform captions
  have hfpos := vocabFreq_pos transform captions
  have hkeepmem := mem_keepWords_iff freq min_count hfnodup hfpos hmc
  have hkeepnodup : keep.Nodup := keepWords_nodup freq min_count hfnodup
  have hkeepfresh : ∀ w ∈ keep, w ∉ dkeys init_word2idx := by
    intro w hw hmem
    simp only [dkeys] at hmem
    obtain ⟨p, hp, hfst⟩ := List.mem_map.mp hmem
    have hlt := hdisj p hp
    rw [hfst] at hlt
    have hge := (hkeepmem w).mp hw
    omega
  have hinv0 : ∀ w idx, dlookup init_word2idx w = some idx →
      dlookup i2w0 idx = some w := dlookup_swap init_word2idx hvals
  have hlen0 : init_word2idx.length = i2w0.length := by
    rw [hi2w0, List.length_map]
  have hi2wlt : ∀ idx ∈ dkeys i2w0, idx < init_word2idx.length := by
    intro idx hmem
    simp only [hi2w0, dkeys, List.map_map] at hmem
    obtain ⟨p, hp, hsnd⟩ := List.mem_map.mp hmem
    subst hsnd
    exact hbound p hp
  obtain ⟨hc, hi, hl⟩ := buildMappings_spec keep init_word2idx.length
    init_word2idx i2w0 hkeys hkeepnodup hkeepfresh hinv0 hlen0 hi2wlt hbound
  refine ⟨?_, by rw [hw2i, hi2w]; exact hi, by rw [hw2i, hi2w]; exact hl, ?_⟩
  · intro w
    rw [hw2i, hc w, hkeepmem w]
  · intro p hp
    have hpm : p.1 ∈ dkeys init_word2idx := by
      simp only [dkeys]
      exact List.mem_map_of_mem Prod.fst hp
    have hct : dcontains init_word2idx p.1 = true :=
      (mem_dkeys_iff_dlookup_isSome _ _).mp hpm
    rw [hw2i]
    exact (hc p.1).mpr (Or.inl hct)

/-- Witness for C1: the spec's concrete corpus with `min_count = 2` keeps
"cat", and the two mappings have equal size. -/
theorem C1_vocab_invariants_witness :
    dcontains (buildVocab [("<PAD>", 0), ("<EOS>", 1)] 2 (transformSentence 50)
        ["A cat.", "a CAT sat", "dog"]).word2idx "cat" = true ∧
    (buildVocab [("<PAD>", 0), ("<EOS>", 1)] 2 (transformSentence 50)
        ["A cat.", "a CAT sat", "dog"]).word2idx.length
      = (buildVocab [("<PAD>", 0), ("<EOS>", 1)] 2 (transformSentence 50)
        ["A cat.", "a CAT sat", "dog"]).idx2word.length := by
  have h := C1_vocab_invariants [("<PAD>", 0), ("<EOS>", 1)] 2 (transformSentence 50)
    ["A cat.", "a CAT sat", "dog"]
    (by decide) (by decide) (by decide) (by decide) (by decide)
  exact ⟨(h.1 "cat").mpr (Or.inr (by decide)), h.2.2.1⟩

/-- C1 counterexample: with reserved mapping `{"a": 0}`, corpus `["a"]` and
`min_count = 1`, the kept corpus word "a" collides with the reserved token:
`word2idx` ends with 1 entry but `idx2word` with 2, so the mappings are not
the same size (and not inverses). -/
theorem C1_counterexample :
    (buildVocab [("a", 0)] 1 splitWithWhiteSpace ["a"]).word2idx.length
      ≠ (buildVocab [("a", 0)] 1 splitWithWhiteSpace ["a"]).idx2word.length := by
  decide

/-! ### Helper lemmas: dataset pair building -/

theorem foldl_append_acc (g : α → List γ) (l : List α) :
    ∀ acc : List γ, l.foldl (fun acc v => acc ++ g v) acc = acc ++ l.flatMap g := by
  induction l with
  | nil => intro acc; simp
  | cons v rest ih =>
    intro acc
    rw [List.foldl_cons, ih, List.flatMap_cons, List.append_assoc]

/-- The pair-building loop is the flat pairing of each video with its grouped
captions. -/
theorem buildVideoCaptionPairs_eq (videos : List (String × List Frame))
    (captions : List (String × List String)) :
    buildVideoCaptionPairs videos captions
      = videos.flatMap
          (fun v => ((dlookup captions v.1).getD []).map (fun c => (v.2, c))) := by
  unfold buildVideoCaptionPairs
  rw [foldl_append_acc]
  exact List.nil_append _

theorem pyListGet_eq_none_iff (xs : List α) (i : Int) :
    pyListGet xs i = none ↔ (i < -(xs.length : Int) ∨ (xs.length : Int) ≤ i) := by
  simp only [pyListGet]
  by_cases hneg : i < 0
  · rw [if_pos hneg]
    by_cases hj : 0 ≤ (xs.length : Int) + i
    · rw [if_pos hj, List.get?_eq_none]
      omega
    · rw [if_neg hj]
      constructor
      · intro _
        omega
      · intro _
        rfl
  · rw [if_neg hneg]
    by_cases hj : 0 ≤ i
    · rw [if_pos hj, List.get?_eq_none]
      omega
    · omega

/-! ### Claim theorems: dataset -/

/-- C8: pair building creates exactly one example per (video id, caption
grouped under that id): the pair list is the concatenation, over the videos in
store order, of that video's captions each paired with its frames. A video
with no captions contributes zero pairs and a caption under an id absent from
the video store is never consulted; concretely, a store with videos `v1_0_1`
(two captions) and `v2_5_9` (none) yields exactly the two `v1_0_1` pairs. -/
theorem C8_pair_building (videos : List (String × List Frame))
    (captions : List (String × List String)) :
    buildVideoCaptionPairs videos captions
      = videos.flatMap
          (fun v => ((dlookup captions v.1).getD []).map (fun c => (v.2, c))) ∧
    (buildVideoCaptionPairs videos captions).length
      = (videos.map (fun v => ((dlookup captions v.1).getD []).length)).sum ∧
    buildVideoCaptionPairs [("v1_0_1", [[7]]), ("v2_5_9", [[8]])]
        (groupCaptions [("v1", 0, 1, "c1"), ("v1", 0, 1, "c2"), ("x", 2, 3, "c3")])
      = [([[7]], "c1"), ([[7]], "c2")] := by
  refine ⟨buildVideoCaptionPairs_eq videos captions, ?_, by decide⟩
  rw [buildVideoCaptionPairs_eq, List.length_flatMap]
  refine congrArg List.sum (List.map_congr_left ?_)
  intro v _
  simp [Function.comp]

/-- C6 (code bug): `MSVDDataset.__len__` returns `len(self.videos)`, the
number of videos, not the number of (video, caption) pairs `__getitem__`
indexes: with one video holding two captions the reported length is 1 while
there are 2 paired examples. -/
theorem C6_len_mismatch :
    datasetLen [("v1_0_1", [[7]])] = 1 ∧
    (buildVideoCaptionPairs [("v1_0_1", [[7]])]
        (groupCaptions [("v1", 0, 1, "c1"), ("v1", 0, 1, "c2")])).length = 2 ∧
    datasetLen [("v1_0_1", [[7]])]
      ≠ (buildVideoCaptionPairs [("v1_0_1", [[7]])]
          (groupCaptions [("v1", 0, 1, "c1"), ("v1", 0, 1, "c2")])).length := by
  exact ⟨rfl, by decide, by decide⟩

/-- C7 (amended): `__getitem__` subscripts the materialized pair list with
Python list semantics: with `P` the number of pairs, it raises `IndexError`
exactly when `i < -P` or `i ≥ P` (negative indices down to `-P` are valid and
count from the end, so the failure set is NOT `i ∉ [0, P)`; see the
counterexample); for `0 ≤ i < P` it returns the `i`-th pair with the frame and
caption transforms applied. -/
theorem C7_getitem_range (videos : List (String × List Frame))
    (captions : List (String × List String))
    (tf : List Frame → γ) (tc : String → δ) (i : Int) :
    (getItem videos captions tf tc i = none ↔
      (i < -((buildVideoCaptionPairs videos captions).length : Int) ∨
        ((buildVideoCaptionPairs videos captions).length : Int) ≤ i)) ∧
    (0 ≤ i → i < ((buildVideoCaptionPairs videos captions).length : Int) →
      getItem videos captions tf tc i
        = ((buildVideoCaptionPairs videos captions).get? i.toNat).map
            (fun p => (tf p.1, tc p.2))) := by
  constructor
  · unfold getItem
    rw [Option.map_eq_none']
    exact pyListGet_eq_none_iff _ i
  · intro h0 _
    simp only [getItem, pyListGet]
    rw [if_neg (by omega : ¬ i < 0), if_pos h0]

/-- Witness for C7: in a 2-pair dataset, index 5 fails and index 0 returns the
first transformed pair. -/
theorem C7_getitem_range_witness :
    getItem [("v1_0_1", [[7]])] [("v1_0_1", ["c1", "c2"])]
        (fun v => v) (fun c => c) 5 = none ∧
    getItem [("v1_0_1", [[7]])] [("v1_0_1", ["c1", "c2"])]
        (fun v => v) (fun c => c) 0 = some ([[7]], "c1") := by
  constructor
  · exact (C7_getitem_range [("v1_0_1", [[7]])] [("v1_0_1", ["c1", "c2"])]
      (fun v => v) (fun c => c) 5).1.mpr (by decide)
  · have h := (C7_getitem_range [("v1_0_1", [[7]])] [("v1_0_1", ["c1", "c2"])]
      (fun v => v) (fun c => c) 0).2 (by decide) (by decide)
    rw [h]
    decide

/-- C7 counterexample: in a dataset whose pair list has 2 entries, `get(-1)`
is outside `[0, length())` yet does not fail — Python's negative indexing
returns the last pair — so "fails iff outside `[0, length())`" is false. -/
theorem C7_counterexample :
    ¬ ((getItem [("v1_0_1", [[7]])] [("v1_0_1", ["c1", "c2"])]
          (fun v => v) (fun c => c) (-1) = none) ↔
        ((-1 : Int) < 0 ∨
          ((buildVideoCaptionPairs [("v1_0_1", [[7]])]
              [("v1_0_1", ["c1", "c2"])]).length : Int) ≤ -1)) := by
  decide
